import Mathlib

/-!
# Architecture identifier of `ompi/datatype/dt_arch.h`

A shallow embedding of the bit-field primitives, the mask constants and the two
host probes of `dt_arch.h`, followed by the properties proved about them.

Conventions of the embedding

* a `uint32_t` is a natural number below `2 ^ 32`; every operation that writes a
  `uint32_t` reduces its result modulo `2 ^ 32`;
* an `int` / `int32_t` is an integer (`Int`);
* a function writing through a pointer (`uint32_t* var`) takes the old contents
  and returns the new contents;
* `assert` is the active assertion of `<assert.h>`: a false condition stops the
  function with `Outcome.assert_failed`;
* behaviour the C language leaves undefined (a shift count outside `0 .. 31`,
  a read outside an object) is the outcome `Outcome.undefined`;
* what the source reads from the host (the bytes of an object in memory,
  `LDBL_MANT_DIG`, `sizeof(long double)`) is a parameter of the function.
-/

namespace OmpiArch

/-! ## Outcomes of a C function -/

/-- How a call of a C function ends: it returns a value, an `assert` fails, or
it runs into behaviour C leaves undefined. -/
inductive Outcome (α : Type) where
  | ret (v : α) : Outcome α
  | assert_failed : Outcome α
  | undefined : Outcome α
  deriving DecidableEq, Repr

/-- Sequencing: the continuation runs only after a normal return. -/
def Outcome.bind {α β : Type} (x : Outcome α) (f : α → Outcome β) : Outcome β :=
  match x with
  | Outcome.ret v => f v
  | Outcome.assert_failed => Outcome.assert_failed
  | Outcome.undefined => Outcome.undefined

instance : Monad Outcome where
  pure := Outcome.ret
  bind := Outcome.bind

/-- The statement `assert(c)`. -/
def c_assert (c : Bool) : Outcome Unit :=
  if c then Outcome.ret () else Outcome.assert_failed

/-! ## Machine integers -/

/-- Number of values of a `uint32_t`. -/
def UINT32_RANGE : Nat := 2 ^ 32

/-- The conversion `(uint32_t) x` of a signed integer: reduction modulo `2 ^ 32`. -/
def to_uint32 (x : Int) : Nat := (x % (2 ^ 32 : Int)).toNat

/-- The expression `a << n` on a 32-bit operand: defined for a shift count in
`0 .. 31`, where the result is reduced modulo `2 ^ 32`. -/
def shl32 (a : Nat) (n : Int) : Outcome Nat :=
  if 0 ≤ n ∧ n < 32 then Outcome.ret ((a <<< n.toNat) % UINT32_RANGE) else Outcome.undefined

/-- The read `p[k]` from an object given by its elements in memory order. -/
def load (p : List Nat) (k : Int) : Outcome Nat :=
  if 0 ≤ k then
    match p[k.toNat]? with
    | some v => Outcome.ret v
    | none => Outcome.undefined
  else Outcome.undefined

/-! ## The masks (`dt_arch.h`, lines 192-210) -/

def OMPI_ARCH_HEADERMASK : Nat := 0x03000000
def OMPI_ARCH_HEADERMASK2 : Nat := 0x00000003
def OMPI_ARCH_UNUSEDMASK : Nat := 0xfc000000

def OMPI_ARCH_ISBIGENDIAN : Nat := 0x00000008
def OMPI_ARCH_LONGIS64 : Nat := 0x00000200
def OMPI_ARCH_LONGLONGISxx : Nat := 0x0000F000
def OMPI_ARCH_LONGDOUBLEIS96 : Nat := 0x00020000
def OMPI_ARCH_LONGDOUBLEIS128 : Nat := 0x00010000

def OMPI_ARCH_LDEXPSIZEIS15 : Nat := 0x00080000

def OMPI_ARCH_LDMANTDIGIS64 : Nat := 0x00400000
def OMPI_ARCH_LDMANTDIGIS105 : Nat := 0x00200000
def OMPI_ARCH_LDMANTDIGIS106 : Nat := 0x00600000
def OMPI_ARCH_LDMANTDIGIS107 : Nat := 0x00100000
def OMPI_ARCH_LDMANTDIGIS113 : Nat := 0x00500000

def OMPI_ARCH_LDISINTEL : Nat := 0x00800000

/-! ## The bit-field primitives (`dt_arch.h`, lines 262-276) -/

/-- `ompi_arch_setmask(var, mask)`: `*var |= mask;`. The result is the new
contents of `*var`. -/
def ompi_arch_setmask (var mask : Nat) : Nat :=
  (var ||| mask) % UINT32_RANGE

/-- `sizeof(uint32_t)`. -/
def sizeof_uint32 : Nat := 4

/-- `ompi_arch_setabit(var, pos)`:
`assert( ((uint32_t)pos) <= (sizeof(uint32_t) * 8) );`
`ompi_arch_setmask( var, (((uint32_t)1) << (pos - 1)) );`.
The result is the new contents of `*var`. -/
def ompi_arch_setabit (var : Nat) (pos : Int) : Outcome Nat := do
  c_assert (decide (to_uint32 pos ≤ sizeof_uint32 * 8))
  let mask ← shl32 1 (pos - 1)
  pure (ompi_arch_setmask var mask)

/-- `ompi_arch_create_empty_id(id)`:
`*id = (OMPI_ARCH_HEADERMASK | OMPI_ARCH_UNUSEDMASK);`. The argument is the old
contents of `*id`, the result the new contents. -/
def ompi_arch_create_empty_id (_id : Nat) : Nat :=
  (OMPI_ARCH_HEADERMASK ||| OMPI_ARCH_UNUSEDMASK) % UINT32_RANGE

/-! ## The endianness probe (`dt_arch.h`, lines 215-226) -/

/-- The bytes, in memory order, that a host of the given byte order stores for
the `uint32_t` value `v`. -/
def store_uint32 (big : Bool) (v : Nat) : List Nat :=
  let lsb_first := [v % 256, v / 256 % 256, v / 65536 % 256, v / 16777216 % 256]
  if big then lsb_first.reverse else lsb_first

/-- `ompi_arch_isbigendian()`. The parameter `value` is what the host has in
memory for `const uint32_t value = 0x12345678`, byte by byte, so that `ptr[x]`
is the read `value[x]`. A byte is compared as the number `0 .. 255` it holds:
`0x12` and `0x78` are below `0x80`, so a signed `char` compares the same way.

    int x = 0;
    if( ptr[x] == 0x12)  return 1;
    if( ptr[x] == 0x78 ) return 0;
    assert( 0 );
    return -1;
-/
def ompi_arch_isbigendian (value : List Nat) : Outcome Int := do
  let ptr := value
  let x : Int := 0
  let c ← load ptr x
  if c = 0x12 then
    pure 1
  else if c = 0x78 then
    pure 0
  else do
    c_assert false
    pure (-1)

/-! ## The long double probe (`dt_arch.h`, lines 239-260) -/

/-- The index computation of `ompi_arch_ldisintel()`: the pair `(i, j)` of the
bit index and the word index the function ends with, from the result `big` of
`ompi_arch_isbigendian()`, `LDBL_MANT_DIG`, `sizeof(long double)` and
`sizeof(unsigned int)`.

    j = LDBL_MANT_DIG / 32;
    i = (LDBL_MANT_DIG % 32) - 1;
    if( ompi_arch_isbigendian() ) {
        j = (sizeof(long double) / sizeof(unsigned int)) - j;
        if( i < 0 ) { i = 31; j = j+1; }
    } else {
        if( i < 0 ) { i = 31; j = j-1; }
    }
-/
def ldisintel_index (big : Int) (LDBL_MANT_DIG : Nat)
    (sizeof_long_double sizeof_unsigned_int : Nat) : Int × Int :=
  let j : Int := ((LDBL_MANT_DIG / 32 : Nat) : Int)
  let i : Int := ((LDBL_MANT_DIG % 32 : Nat) : Int) - 1
  if big ≠ 0 then
    let j := ((sizeof_long_double / sizeof_unsigned_int : Nat) : Int) - j
    if i < 0 then (31, j + 1) else (i, j)
  else
    if i < 0 then (31, j - 1) else (i, j)

/-- `ompi_arch_ldisintel()`. Parameters, all read from the host by the source:
`value` as in `ompi_arch_isbigendian`; `LDBL_MANT_DIG` of `<float.h>`;
`sizeof(long double)` and `sizeof(unsigned int)`; and `ld`, the object
`long double ld = 2.0` as the sequence of `uint32_t` words `pui[0], pui[1], ...`
the host reads from it. The indices `i` and `j` are those of `ldisintel_index`.
The expression `1 << i` is the word with only bit `i` set, for `i` in `0 .. 31`.

    uint32_t* pui = (uint32_t*) &ld;
    ...
    return (pui[j] & (1 << i) ? 1 : 0);
-/
def ompi_arch_ldisintel (value : List Nat) (LDBL_MANT_DIG : Nat)
    (sizeof_long_double sizeof_unsigned_int : Nat) (ld : List Nat) : Outcome Int := do
  let pui := ld
  let big ← ompi_arch_isbigendian value
  let ij := ldisintel_index big LDBL_MANT_DIG sizeof_long_double sizeof_unsigned_int
  let w ← load pui ij.2
  let bit ← shl32 1 ij.1
  pure (if w &&& bit ≠ 0 then 1 else 0)

/-! ## Building and reading an identifier

The fields of an identifier, with the mask the source defines for each value.
A value coded by zero bits has no mask: nothing is set for it. -/

inductive ByteOrder where
  | little | big
  deriving DecidableEq, Repr

inductive LongWidth where
  | long32 | long64
  deriving DecidableEq, Repr

inductive LongDoubleWidth where
  | ld64 | ld96 | ld128
  deriving DecidableEq, Repr

inductive ExponentClass where
  | exp10 | exp14
  deriving DecidableEq, Repr

inductive MantissaClass where
  | mant53 | mant64 | mant105 | mant106 | mant107 | mant113
  deriving DecidableEq, Repr

inductive LeadingBit where
  | implicit | explicit
  deriving DecidableEq, Repr

/-- One combination of field values. -/
structure Fields where
  order : ByteOrder
  long : LongWidth
  ldwidth : LongDoubleWidth
  exponent : ExponentClass
  mantissa : MantissaClass
  leading : LeadingBit
  deriving DecidableEq, Repr

def ByteOrder.mask : ByteOrder → Option Nat
  | ByteOrder.little => none
  | ByteOrder.big => some OMPI_ARCH_ISBIGENDIAN

def LongWidth.mask : LongWidth → Option Nat
  | LongWidth.long32 => none
  | LongWidth.long64 => some OMPI_ARCH_LONGIS64

def LongDoubleWidth.mask : LongDoubleWidth → Option Nat
  | LongDoubleWidth.ld64 => none
  | LongDoubleWidth.ld96 => some OMPI_ARCH_LONGDOUBLEIS96
  | LongDoubleWidth.ld128 => some OMPI_ARCH_LONGDOUBLEIS128

def ExponentClass.mask : ExponentClass → Option Nat
  | ExponentClass.exp10 => none
  | ExponentClass.exp14 => some OMPI_ARCH_LDEXPSIZEIS15

def MantissaClass.mask : MantissaClass → Option Nat
  | MantissaClass.mant53 => none
  | MantissaClass.mant64 => some OMPI_ARCH_LDMANTDIGIS64
  | MantissaClass.mant105 => some OMPI_ARCH_LDMANTDIGIS105
  | MantissaClass.mant106 => some OMPI_ARCH_LDMANTDIGIS106
  | MantissaClass.mant107 => some OMPI_ARCH_LDMANTDIGIS107
  | MantissaClass.mant113 => some OMPI_ARCH_LDMANTDIGIS113

def LeadingBit.mask : LeadingBit → Option Nat
  | LeadingBit.implicit => none
  | LeadingBit.explicit => some OMPI_ARCH_LDISINTEL

/-- One step of building: `ompi_arch_setmask` with the mask of the chosen value,
no call for a value without a mask. -/
def set_field (var : Nat) : Option Nat → Nat
  | none => var
  | some mask => ompi_arch_setmask var mask

/-- The identifier of a combination: `ompi_arch_create_empty_id`, then
`ompi_arch_setmask` once per field. `id0` is the old contents of the word. -/
def build_id (id0 : Nat) (f : Fields) : Nat :=
  let id := ompi_arch_create_empty_id id0
  let id := set_field id f.order.mask
  let id := set_field id f.long.mask
  let id := set_field id f.ldwidth.mask
  let id := set_field id f.exponent.mask
  let id := set_field id f.mantissa.mask
  set_field id f.leading.mask

/-- Bit group of the byte order. -/
def GROUP_ORDER : Nat := OMPI_ARCH_ISBIGENDIAN
/-- Bit group of the long width. -/
def GROUP_LONG : Nat := OMPI_ARCH_LONGIS64
/-- Bit group of the long double width: the bits of its two masks. -/
def GROUP_LDWIDTH : Nat := OMPI_ARCH_LONGDOUBLEIS96 ||| OMPI_ARCH_LONGDOUBLEIS128
/-- Bit group of the exponent class. -/
def GROUP_EXPONENT : Nat := OMPI_ARCH_LDEXPSIZEIS15
/-- Bit group of the mantissa class: the bits of its five masks. -/
def GROUP_MANTISSA : Nat :=
  OMPI_ARCH_LDMANTDIGIS64 ||| OMPI_ARCH_LDMANTDIGIS105 ||| OMPI_ARCH_LDMANTDIGIS106 |||
    OMPI_ARCH_LDMANTDIGIS107 ||| OMPI_ARCH_LDMANTDIGIS113
/-- Bit group of the leading-bit style. -/
def GROUP_LEADING : Nat := OMPI_ARCH_LDISINTEL

/-- The bits an identifier holds in a group. -/
def read_group (id group : Nat) : Nat := id &&& group

/-- The bits a chosen value puts in its group: its mask, or zero. -/
def code (m : Option Nat) : Nat := m.getD 0

/-- The value whose code is the content `bits` of a group, among the listed
values. -/
def value_of {α : Type} (mask : α → Option Nat) (all : List α) (bits : Nat) : Option α :=
  all.find? fun v => decide (code (mask v) = bits)

/-- Reading an identifier back: each field is the value whose code its bit group
holds; no result when a group holds the code of no value. -/
def read_fields (id : Nat) : Option Fields := do
  let order ← value_of ByteOrder.mask [ByteOrder.little, ByteOrder.big] (read_group id GROUP_ORDER)
  let long ← value_of LongWidth.mask [LongWidth.long32, LongWidth.long64] (read_group id GROUP_LONG)
  let ldwidth ← value_of LongDoubleWidth.mask
    [LongDoubleWidth.ld64, LongDoubleWidth.ld96, LongDoubleWidth.ld128] (read_group id GROUP_LDWIDTH)
  let exponent ← value_of ExponentClass.mask [ExponentClass.exp10, ExponentClass.exp14]
    (read_group id GROUP_EXPONENT)
  let mantissa ← value_of MantissaClass.mask
    [MantissaClass.mant53, MantissaClass.mant64, MantissaClass.mant105, MantissaClass.mant106,
      MantissaClass.mant107, MantissaClass.mant113] (read_group id GROUP_MANTISSA)
  let leading ← value_of LeadingBit.mask [LeadingBit.implicit, LeadingBit.explicit]
    (read_group id GROUP_LEADING)
  pure { order := order, long := long, ldwidth := ldwidth, exponent := exponent,
         mantissa := mantissa, leading := leading }

/-- The bit groups of the six fields. -/
def FIELD_GROUPS : List Nat :=
  [GROUP_ORDER, GROUP_LONG, GROUP_LDWIDTH, GROUP_EXPONENT, GROUP_MANTISSA, GROUP_LEADING]

/-- The masks of the field values: every mask of lines 196-210 but
`OMPI_ARCH_LONGLONGISxx`, which no field uses. -/
def SEMANTIC_MASKS : List Nat :=
  [OMPI_ARCH_ISBIGENDIAN, OMPI_ARCH_LONGIS64, OMPI_ARCH_LONGDOUBLEIS96,
    OMPI_ARCH_LONGDOUBLEIS128, OMPI_ARCH_LDEXPSIZEIS15, OMPI_ARCH_LDMANTDIGIS64,
    OMPI_ARCH_LDMANTDIGIS105, OMPI_ARCH_LDMANTDIGIS106, OMPI_ARCH_LDMANTDIGIS107,
    OMPI_ARCH_LDMANTDIGIS113, OMPI_ARCH_LDISINTEL]

/-- A sequence of `ompi_arch_setmask` calls on one word, one call per mask of
the list, in order. -/
def set_masks (var : Nat) (masks : List Nat) : Nat :=
  masks.foldl ompi_arch_setmask var

/-! ## The layout documentation (`dt_arch.h`, lines 161-188)

The comment numbers the bytes `1 .. 4` and the bits of a byte `1 .. 8`, and
writes a code with its lowest-numbered bit first. Bit `k` of byte `b` is the bit
of value `2 ^ (8 * (b - 1) + k - 1)`. -/

/-- Value of bit `k` (`1 .. 8`) of byte `b` (`1 .. 4`) of the documentation. -/
def layout_bit (b k : Nat) : Nat := 2 ^ (8 * (b - 1) + k - 1)

/-- Value of a code written as in the documentation, digit by digit from bit
`first` of byte `b` upward. -/
def layout_code (b first : Nat) : List Nat → Nat
  | [] => 0
  | d :: ds => d * layout_bit b first + layout_code b (first + 1) ds

/-- Value of all the bits `first .. last` of byte `b`. -/
def layout_bits (b first last : Nat) : Nat :=
  layout_code b first (List.replicate (last + 1 - first) 1)

/-! ## Long double layouts -/

/-- The number a sequence of 32-bit words stands for, the first word being
the least significant. -/
def words_value : List Nat → Nat
  | [] => 0
  | w :: ws => 2 ^ 32 * words_value ws + w

/-- The table of lines 115-125 as pairs (`LDBL_MANT_DIG`, `sizeof(long double)`
in bytes), each pair once. -/
def SUPPORTED_LAYOUTS : List (Nat × Nat) :=
  [(53, 8), (64, 12), (64, 16), (105, 16), (106, 16), (107, 16), (113, 16)]

/-- The number, counted from the least-significant bit of the first word, of
the bit at bit index `i` of word `j`, for the indices `ompi_arch_ldisintel`
computes. -/
def tested_bit (big : Int) (LDBL_MANT_DIG : Nat)
    (sizeof_long_double sizeof_unsigned_int : Nat) : Int :=
  32 * (ldisintel_index big LDBL_MANT_DIG sizeof_long_double sizeof_unsigned_int).2
    + (ldisintel_index big LDBL_MANT_DIG sizeof_long_double sizeof_unsigned_int).1

/-! ## Properties of the empty identifier and of `ompi_arch_setmask` -/

/-- The empty identifier is the word `0xFF000000`, whatever the word held. -/
theorem create_empty_id_value (id0 : Nat) : ompi_arch_create_empty_id id0 = 0xFF000000 := by
  unfold ompi_arch_create_empty_id
  decide

/-- An OR of two 32-bit words is a 32-bit word, so `ompi_arch_setmask` is the
plain OR. -/
theorem setmask_eq_lor {var mask : Nat} (hv : var < 2 ^ 32) (hm : mask < 2 ^ 32) :
    ompi_arch_setmask var mask = var ||| mask := by
  unfold ompi_arch_setmask UINT32_RANGE
  exact Nat.mod_eq_of_lt (Nat.or_lt_two_pow hv hm)

/-- C1, as stated, fails: in the empty identifier, counting from the
least-significant bit, it is not the case that bits 31 and 30 are 0 and bits 1
and 0 are 1. -/
theorem C1_guard_bits_as_stated_fail :
    ¬ ((ompi_arch_create_empty_id 0).testBit 31 = false
        ∧ (ompi_arch_create_empty_id 0).testBit 30 = false
        ∧ (ompi_arch_create_empty_id 0).testBit 1 = true
        ∧ (ompi_arch_create_empty_id 0).testBit 0 = true) := by
  rw [create_empty_id_value]
  decide

/-- C1, amended: in the identifier produced by `ompi_arch_create_empty_id`,
counting bits from the least-significant bit, the `00` guard is bits 1 and 0
(`OMPI_ARCH_HEADERMASK2`), both 0, and the `11` guard is bits 25 and 24
(`OMPI_ARCH_HEADERMASK`), both 1; bits 31 and 30 are reserved bits and both 1. -/
theorem C1_guard_bits (id0 : Nat) :
    (ompi_arch_create_empty_id id0).testBit 1 = false
      ∧ (ompi_arch_create_empty_id id0).testBit 0 = false
      ∧ (ompi_arch_create_empty_id id0).testBit 25 = true
      ∧ (ompi_arch_create_empty_id id0).testBit 24 = true
      ∧ (ompi_arch_create_empty_id id0).testBit 31 = true
      ∧ (ompi_arch_create_empty_id id0).testBit 30 = true
      ∧ ompi_arch_create_empty_id id0 &&& OMPI_ARCH_HEADERMASK2 = 0
      ∧ ompi_arch_create_empty_id id0 &&& OMPI_ARCH_HEADERMASK = OMPI_ARCH_HEADERMASK
      ∧ OMPI_ARCH_HEADERMASK2 = 2 ^ 1 + 2 ^ 0
      ∧ OMPI_ARCH_HEADERMASK = 2 ^ 25 + 2 ^ 24 := by
  rw [create_empty_id_value]
  decide

/-- The identifier built does not depend on what the word held before. -/
theorem build_id_old_contents (id0 : Nat) (f : Fields) : build_id id0 f = build_id 0 f := rfl

/-- Reading back what was built gives the combination it was built from. -/
theorem read_fields_build_id (id0 : Nat) (f : Fields) :
    read_fields (build_id id0 f) = some f := by
  rw [build_id_old_contents]
  rcases f with ⟨a, b, c, d, e, g⟩
  cases a <;> cases b <;> cases c <;> cases d <;> cases e <;> cases g <;> rfl

/-- Each bit group of a built identifier holds the code of the chosen value. -/
theorem read_group_build_id (id0 : Nat) (f : Fields) :
    read_group (build_id id0 f) GROUP_ORDER = code f.order.mask
      ∧ read_group (build_id id0 f) GROUP_LONG = code f.long.mask
      ∧ read_group (build_id id0 f) GROUP_LDWIDTH = code f.ldwidth.mask
      ∧ read_group (build_id id0 f) GROUP_EXPONENT = code f.exponent.mask
      ∧ read_group (build_id id0 f) GROUP_MANTISSA = code f.mantissa.mask
      ∧ read_group (build_id id0 f) GROUP_LEADING = code f.leading.mask := by
  rw [build_id_old_contents]
  rcases f with ⟨a, b, c, d, e, g⟩
  cases a <;> cases b <;> cases c <;> cases d <;> cases e <;> cases g <;> decide

/-- C2: for every combination of byte order, long width, long double width,
exponent class, mantissa class and leading-bit style, the identifier built by
`ompi_arch_create_empty_id` followed by `ompi_arch_setmask` with the masks of
the chosen values round-trips: each bit group read back holds the code of the
chosen value and the fields read back are the chosen ones, so different
combinations give different identifiers. The two scenarios give `0xFF590200`
and `0xFFCA0008`, each read back as its own fields. -/
theorem C2_round_trip (id0 : Nat) :
    (∀ f : Fields,
        (read_group (build_id id0 f) GROUP_ORDER = code f.order.mask
          ∧ read_group (build_id id0 f) GROUP_LONG = code f.long.mask
          ∧ read_group (build_id id0 f) GROUP_LDWIDTH = code f.ldwidth.mask
          ∧ read_group (build_id id0 f) GROUP_EXPONENT = code f.exponent.mask
          ∧ read_group (build_id id0 f) GROUP_MANTISSA = code f.mantissa.mask
          ∧ read_group (build_id id0 f) GROUP_LEADING = code f.leading.mask)
        ∧ read_fields (build_id id0 f) = some f)
      ∧ Function.Injective (build_id id0)
      ∧ build_id id0
          { order := ByteOrder.little, long := LongWidth.long64,
            ldwidth := LongDoubleWidth.ld128, exponent := ExponentClass.exp14,
            mantissa := MantissaClass.mant113, leading := LeadingBit.implicit } = 0xFF590200
      ∧ read_fields 0xFF590200 = some
          { order := ByteOrder.little, long := LongWidth.long64,
            ldwidth := LongDoubleWidth.ld128, exponent := ExponentClass.exp14,
            mantissa := MantissaClass.mant113, leading := LeadingBit.implicit }
      ∧ build_id id0
          { order := ByteOrder.big, long := LongWidth.long32,
            ldwidth := LongDoubleWidth.ld96, exponent := ExponentClass.exp14,
            mantissa := MantissaClass.mant64, leading := LeadingBit.explicit } = 0xFFCA0008
      ∧ read_fields 0xFFCA0008 = some
          { order := ByteOrder.big, long := LongWidth.long32,
            ldwidth := LongDoubleWidth.ld96, exponent := ExponentClass.exp14,
            mantissa := MantissaClass.mant64, leading := LeadingBit.explicit } := by
  refine ⟨fun f => ⟨read_group_build_id id0 f, read_fields_build_id id0 f⟩, ?_, ?_, ?_, ?_, ?_⟩
  · intro f g h
    have hf := read_fields_build_id id0 f
    rw [h, read_fields_build_id id0 g] at hf
    exact (Option.some.inj hf).symm
  · rw [build_id_old_contents]; decide
  · decide
  · rw [build_id_old_contents]; decide
  · decide

/-- C3: the identifier produced by `ompi_arch_create_empty_id` equals
`OMPI_ARCH_HEADERMASK | OMPI_ARCH_UNUSEDMASK` and has every semantic field at
zero: its AND with each semantic mask is 0. The reserved bits in the byte of the
`11` guard (`OMPI_ARCH_UNUSEDMASK`, bits 26 to 31) are all 1 and the reserved
bits in the byte of the `00` guard (bits 4 to 7) are all 0. -/
theorem C3_empty_id (id0 : Nat) :
    ompi_arch_create_empty_id id0 = OMPI_ARCH_HEADERMASK ||| OMPI_ARCH_UNUSEDMASK
      ∧ ompi_arch_create_empty_id id0 &&& OMPI_ARCH_ISBIGENDIAN = 0
      ∧ ompi_arch_create_empty_id id0 &&& OMPI_ARCH_LONGIS64 = 0
      ∧ ompi_arch_create_empty_id id0 &&& OMPI_ARCH_LONGLONGISxx = 0
      ∧ ompi_arch_create_empty_id id0 &&& OMPI_ARCH_LONGDOUBLEIS96 = 0
      ∧ ompi_arch_create_empty_id id0 &&& OMPI_ARCH_LONGDOUBLEIS128 = 0
      ∧ ompi_arch_create_empty_id id0 &&& OMPI_ARCH_LDEXPSIZEIS15 = 0
      ∧ ompi_arch_create_empty_id id0 &&& OMPI_ARCH_LDMANTDIGIS64 = 0
      ∧ ompi_arch_create_empty_id id0 &&& OMPI_ARCH_LDMANTDIGIS105 = 0
      ∧ ompi_arch_create_empty_id id0 &&& OMPI_ARCH_LDMANTDIGIS106 = 0
      ∧ ompi_arch_create_empty_id id0 &&& OMPI_ARCH_LDMANTDIGIS107 = 0
      ∧ ompi_arch_create_empty_id id0 &&& OMPI_ARCH_LDMANTDIGIS113 = 0
      ∧ ompi_arch_create_empty_id id0 &&& OMPI_ARCH_LDISINTEL = 0
      ∧ ompi_arch_create_empty_id id0 &&& OMPI_ARCH_UNUSEDMASK = OMPI_ARCH_UNUSEDMASK
      ∧ OMPI_ARCH_UNUSEDMASK = 2 ^ 31 + 2 ^ 30 + 2 ^ 29 + 2 ^ 28 + 2 ^ 27 + 2 ^ 26
      ∧ ompi_arch_create_empty_id id0 &&& (2 ^ 7 + 2 ^ 6 + 2 ^ 5 + 2 ^ 4) = 0 := by
  rw [create_empty_id_value]
  decide

/-- C4: for every 32-bit word and every 32-bit mask, `ompi_arch_setmask` (a
total function, it has no failing outcome) leaves the word equal to
`word OR mask`, again a 32-bit word: a bit is set afterwards exactly when it was
set in the old word or is set in the mask. -/
theorem C4_setmask (var mask : Nat) (hv : var < 2 ^ 32) (hm : mask < 2 ^ 32) :
    ompi_arch_setmask var mask = var ||| mask
      ∧ ompi_arch_setmask var mask < 2 ^ 32
      ∧ ∀ k : Nat, (ompi_arch_setmask var mask).testBit k = (var.testBit k || mask.testBit k) := by
  rw [setmask_eq_lor hv hm]
  exact ⟨rfl, Nat.or_lt_two_pow hv hm, fun k => Nat.testBit_or var mask k⟩

/-- C4 at the word `0xFF000000` and the mask `OMPI_ARCH_LONGIS64`. -/
theorem C4_setmask_witness :
    ompi_arch_setmask 0xFF000000 0x00000200 = 0xFF000000 ||| 0x00000200
      ∧ ompi_arch_setmask 0xFF000000 0x00000200 < 2 ^ 32
      ∧ ∀ k : Nat, (ompi_arch_setmask 0xFF000000 0x00000200).testBit k
          = (Nat.testBit 0xFF000000 k || Nat.testBit 0x00000200 k) :=
  C4_setmask 0xFF000000 0x00000200 (by decide) (by decide)

/-! ## Properties of `ompi_arch_setabit` -/

/-- The conversion `(uint32_t) pos` of a non-negative `int32_t` is `pos`. -/
theorem to_uint32_of_nonneg (n : Nat) (h : n < 2 ^ 32) : to_uint32 (n : Int) = n := by
  unfold to_uint32
  omega

/-- For a position `n + 1` with `n < 32` the assertion passes and the mask set
is `2 ^ n`. -/
theorem setabit_succ (var n : Nat) (hn : n < 32) :
    ompi_arch_setabit var ((n : Int) + 1) = Outcome.ret (ompi_arch_setmask var (2 ^ n)) := by
  have hu : to_uint32 ((n : Int) + 1) = n + 1 := by
    have := to_uint32_of_nonneg (n + 1) (by omega)
    simpa using this
  have hlt : 2 ^ n < 2 ^ 32 := Nat.pow_lt_pow_right (by decide) hn
  have hs : shl32 1 ((n : Int) + 1 - 1) = Outcome.ret (2 ^ n) := by
    unfold shl32 UINT32_RANGE
    have h1 : (0 : Int) ≤ (n : Int) + 1 - 1 ∧ (n : Int) + 1 - 1 < 32 := by omega
    rw [if_pos h1]
    have h2 : ((n : Int) + 1 - 1).toNat = n := by omega
    rw [h2, Nat.one_shiftLeft, Nat.mod_eq_of_lt hlt]
  have ha : c_assert (decide (to_uint32 ((n : Int) + 1) ≤ sizeof_uint32 * 8)) = Outcome.ret () := by
    unfold c_assert sizeof_uint32
    rw [hu]
    have : n + 1 ≤ 4 * 8 := by omega
    simp [this]
  show Outcome.bind _ _ = _
  rw [ha]
  show Outcome.bind _ _ = _
  rw [hs]
  rfl

/-- For an `int32_t` position that is negative or above 32 the assertion of
`ompi_arch_setabit` fails. -/
theorem setabit_assertion_fails (var : Nat) (pos : Int)
    (hlo : -(2 ^ 31) ≤ pos) (hhi : pos < 2 ^ 31) (hbad : pos < 0 ∨ 32 < pos) :
    ompi_arch_setabit var pos = Outcome.assert_failed := by
  have hu : ¬ to_uint32 pos ≤ sizeof_uint32 * 8 := by
    unfold to_uint32 sizeof_uint32
    omega
  have ha : c_assert (decide (to_uint32 pos ≤ sizeof_uint32 * 8)) = Outcome.assert_failed := by
    unfold c_assert
    simp [hu]
  show Outcome.bind _ _ = _
  rw [ha]
  rfl

/-- C5: for every 32-bit word and every position `pos` with `1 <= pos <= 32`,
`ompi_arch_setabit` passes its assertion and returns the word with bit number
`pos - 1` (value `2 ^ (pos - 1)`) set and every other bit unchanged. -/
theorem C5_setabit (var : Nat) (pos : Int) (hv : var < 2 ^ 32) (h1 : 1 ≤ pos) (h32 : pos ≤ 32) :
    ompi_arch_setabit var pos = Outcome.ret (var ||| 2 ^ (pos - 1).toNat)
      ∧ (var ||| 2 ^ (pos - 1).toNat) < 2 ^ 32
      ∧ (var ||| 2 ^ (pos - 1).toNat).testBit (pos - 1).toNat = true
      ∧ ∀ k : Nat, k ≠ (pos - 1).toNat →
          (var ||| 2 ^ (pos - 1).toNat).testBit k = var.testBit k := by
  obtain ⟨n, hn, rfl⟩ : ∃ n : Nat, n < 32 ∧ pos = (n : Int) + 1 :=
    ⟨(pos - 1).toNat, by omega, by omega⟩
  have hidx : ((n : Int) + 1 - 1).toNat = n := by omega
  have hlt : 2 ^ n < 2 ^ 32 := Nat.pow_lt_pow_right (by decide) hn
  rw [hidx, setabit_succ var n hn, setmask_eq_lor hv hlt]
  refine ⟨rfl, Nat.or_lt_two_pow hv hlt, ?_, ?_⟩
  · rw [Nat.testBit_or, Nat.testBit_two_pow_self, Bool.or_true]
  · intro k hk
    rw [Nat.testBit_or, Nat.testBit_two_pow_of_ne (Ne.symm hk), Bool.or_false]

/-- C5 at the empty identifier and position 4, the bit of
`OMPI_ARCH_ISBIGENDIAN`. -/
theorem C5_setabit_witness :
    ompi_arch_setabit 0xFF000000 4 = Outcome.ret (0xFF000000 ||| 2 ^ ((4 : Int) - 1).toNat)
      ∧ (0xFF000000 ||| 2 ^ ((4 : Int) - 1).toNat) < 2 ^ 32
      ∧ (0xFF000000 ||| 2 ^ ((4 : Int) - 1).toNat).testBit ((4 : Int) - 1).toNat = true
      ∧ ∀ k : Nat, k ≠ ((4 : Int) - 1).toNat →
          (0xFF000000 ||| 2 ^ ((4 : Int) - 1).toNat).testBit k = Nat.testBit 0xFF000000 k :=
  C5_setabit 0xFF000000 4 (by decide) (by decide) (by decide)

/-- C6 at position 0: the position violates `1 <= pos <= 32`, yet the assertion
`((uint32_t)pos) <= 32` passes and the function goes on to the shift
`1 << (0 - 1)`, whose count is negative: the outcome is the undefined shift, not
the failed assertion. -/
theorem C6_setabit_position_zero (var : Nat) :
    c_assert (decide (to_uint32 0 ≤ sizeof_uint32 * 8)) = Outcome.ret ()
      ∧ ompi_arch_setabit var 0 = Outcome.undefined
      ∧ ompi_arch_setabit var 0 ≠ Outcome.assert_failed := by
  refine ⟨by decide, rfl, ?_⟩
  intro h
  have h0 : ompi_arch_setabit var 0 = Outcome.undefined := rfl
  rw [h0] at h
  exact Outcome.noConfusion h

/-! ## Properties of `ompi_arch_isbigendian` -/

/-- The probe as a function of the first byte in memory. -/
theorem isbigendian_cons (b : Nat) (rest : List Nat) :
    ompi_arch_isbigendian (b :: rest) =
      if b = 0x12 then Outcome.ret 1
      else if b = 0x78 then Outcome.ret 0
      else Outcome.assert_failed := by
  show Outcome.bind (load (b :: rest) 0) _ = _
  have hl : load (b :: rest) 0 = Outcome.ret b := by
    simp [load]
  rw [hl]
  show (if b = 0x12 then _ else _) = _
  by_cases h12 : b = 0x12
  · rw [if_pos h12, if_pos h12]; rfl
  · rw [if_neg h12, if_neg h12]
    by_cases h78 : b = 0x78
    · rw [if_pos h78, if_pos h78]; rfl
    · rw [if_neg h78, if_neg h78]; rfl

/-- With no byte to read the probe does not return. -/
theorem isbigendian_nil : ompi_arch_isbigendian [] = Outcome.undefined := rfl

/-- C7: over the in-memory bytes of the pattern `0x12345678`,
`ompi_arch_isbigendian` returns 1 exactly when the first byte in memory is
`0x12`, the most-significant byte, and 0 exactly when it is `0x78`, the
least-significant byte. The big-endian layout is `[0x12,0x34,0x56,0x78]` and
gives 1, the little-endian layout is `[0x78,0x56,0x34,0x12]` and gives 0. -/
theorem C7_isbigendian :
    (∀ (b : Nat) (rest : List Nat),
        (ompi_arch_isbigendian (b :: rest) = Outcome.ret 1 ↔ b = 0x12)
          ∧ (ompi_arch_isbigendian (b :: rest) = Outcome.ret 0 ↔ b = 0x78))
      ∧ store_uint32 true 0x12345678 = [0x12, 0x34, 0x56, 0x78]
      ∧ ompi_arch_isbigendian [0x12, 0x34, 0x56, 0x78] = Outcome.ret 1
      ∧ store_uint32 false 0x12345678 = [0x78, 0x56, 0x34, 0x12]
      ∧ ompi_arch_isbigendian [0x78, 0x56, 0x34, 0x12] = Outcome.ret 0 := by
  refine ⟨fun b rest => ?_, by decide, by decide, by decide, by decide⟩
  rw [isbigendian_cons]
  by_cases h12 : b = 0x12
  · subst h12
    simp
  · by_cases h78 : b = 0x78
    · subst h78
      simp
    · simp [h12, h78]

/-- C8: for every first byte that is neither `0x12` nor `0x78`,
`ompi_arch_isbigendian` ends in the failed assertion and returns no value; and
on no memory contents does the probe return a value other than 1 or 0. -/
theorem C8_isbigendian_unrecognized (b : Nat) (rest : List Nat)
    (h12 : b ≠ 0x12) (h78 : b ≠ 0x78) :
    ompi_arch_isbigendian (b :: rest) = Outcome.assert_failed
      ∧ (∀ v : Int, ompi_arch_isbigendian (b :: rest) ≠ Outcome.ret v)
      ∧ ∀ (value : List Nat) (v : Int),
          ompi_arch_isbigendian value = Outcome.ret v → v = 1 ∨ v = 0 := by
  have hfail : ompi_arch_isbigendian (b :: rest) = Outcome.assert_failed := by
    rw [isbigendian_cons, if_neg h12, if_neg h78]
  refine ⟨hfail, ?_, ?_⟩
  · intro v hv
    rw [hfail] at hv
    exact Outcome.noConfusion hv
  · intro value v hv
    cases value with
    | nil =>
      rw [isbigendian_nil] at hv
      exact Outcome.noConfusion hv
    | cons c tl =>
      rw [isbigendian_cons] at hv
      by_cases c12 : c = 0x12
      · rw [if_pos c12] at hv
        exact Or.inl (Outcome.ret.inj hv).symm
      · rw [if_neg c12] at hv
        by_cases c78 : c = 0x78
        · rw [if_pos c78] at hv
          exact Or.inr (Outcome.ret.inj hv).symm
        · rw [if_neg c78] at hv
          exact Outcome.noConfusion hv

/-- C8 at the layout `[0x34, 0x12, 0x78, 0x56]`, which stores the 16-bit halves
of the pattern in one order and the bytes inside a half in the other. -/
theorem C8_isbigendian_unrecognized_witness :
    ompi_arch_isbigendian [0x34, 0x12, 0x78, 0x56] = Outcome.assert_failed
      ∧ (∀ v : Int, ompi_arch_isbigendian [0x34, 0x12, 0x78, 0x56] ≠ Outcome.ret v)
      ∧ ∀ (value : List Nat) (v : Int),
          ompi_arch_isbigendian value = Outcome.ret v → v = 1 ∨ v = 0 :=
  C8_isbigendian_unrecognized 0x34 [0x12, 0x78, 0x56] (by decide) (by decide)

/-! ## Properties of `ompi_arch_ldisintel` on the layouts of 2.0 -/

/-- The probe, step by step: the byte order, the word read, the bit tested. -/
theorem ldisintel_unfold (value : List Nat) (m s u : Nat) (ld : List Nat) :
    ompi_arch_ldisintel value m s u ld =
      (ompi_arch_isbigendian value).bind fun big =>
        (load ld (ldisintel_index big m s u).2).bind fun w =>
          (shl32 1 (ldisintel_index big m s u).1).bind fun bit =>
            Outcome.ret (if w &&& bit ≠ 0 then 1 else 0) := rfl

/-- C9: on a little-endian host whose long double is the x87 80-bit extended
format (`LDBL_MANT_DIG = 64`, stored in 12 or in 16 bytes), with 2.0 laid out as
the words `0x00000000, 0x80000000, 0x00004000` and padding, here the upper half
`pad2` of the third word and a fourth word `pad3`, `ompi_arch_ldisintel`
returns 1 whatever the padding holds. -/
theorem C9_ldisintel_x87 (pad2 pad3 : Nat) :
    ompi_arch_ldisintel (store_uint32 false 0x12345678) 64 12 4
        [0x00000000, 0x80000000, 0x00004000 + 0x10000 * pad2] = Outcome.ret 1
      ∧ ompi_arch_ldisintel (store_uint32 false 0x12345678) 64 16 4
        [0x00000000, 0x80000000, 0x00004000 + 0x10000 * pad2, pad3] = Outcome.ret 1 := by
  have hlittle : ompi_arch_isbigendian (store_uint32 false 0x12345678) = Outcome.ret 0 := by
    decide
  have h12 : ldisintel_index 0 64 12 4 = (31, 1) := by decide
  have h16 : ldisintel_index 0 64 16 4 = (31, 1) := by decide
  have hbit : shl32 1 31 = Outcome.ret 0x80000000 := by decide
  constructor
  · rw [ldisintel_unfold, hlittle]
    simp only [Outcome.bind, h12, hbit]
    simp [load]
  · rw [ldisintel_unfold, hlittle]
    simp only [Outcome.bind, h16, hbit]
    simp [load]

/-- C10: on a host whose long double is IEEE binary64 (`LDBL_MANT_DIG = 53`,
8 bytes) or IEEE binary128 (`LDBL_MANT_DIG = 113`, 16 bytes), with the words of
2.0 in little-endian order on a little-endian host and in big-endian order on a
big-endian host, `ompi_arch_ldisintel` returns 0. -/
theorem C10_ldisintel_ieee :
    ompi_arch_ldisintel (store_uint32 false 0x12345678) 53 8 4
        [0x00000000, 0x40000000] = Outcome.ret 0
      ∧ ompi_arch_ldisintel (store_uint32 true 0x12345678) 53 8 4
        [0x40000000, 0x00000000] = Outcome.ret 0
      ∧ ompi_arch_ldisintel (store_uint32 false 0x12345678) 113 16 4
        [0x00000000, 0x00000000, 0x00000000, 0x40000000] = Outcome.ret 0
      ∧ ompi_arch_ldisintel (store_uint32 true 0x12345678) 113 16 4
        [0x40000000, 0x00000000, 0x00000000, 0x00000000] = Outcome.ret 0
      ∧ ompi_arch_isbigendian (store_uint32 true 0x12345678) = Outcome.ret 1
      ∧ ompi_arch_isbigendian (store_uint32 false 0x12345678) = Outcome.ret 0 := by
  decide

/-! ## Independence of the fields -/

/-- The bit groups are the words the field masks add up to. -/
theorem field_groups_value :
    FIELD_GROUPS = [0x00000008, 0x00000200, 0x00030000, 0x00080000, 0x00700000, 0x00800000] := by
  decide

/-- Two different bit groups share no bit. -/
theorem field_groups_disjoint {G H : Nat} (hG : G ∈ FIELD_GROUPS) (hH : H ∈ FIELD_GROUPS)
    (hne : G ≠ H) : G &&& H = 0 := by
  rw [field_groups_value] at hG hH
  simp only [List.mem_cons, List.mem_singleton, List.not_mem_nil, or_false] at hG hH
  rcases hG with rfl | rfl | rfl | rfl | rfl | rfl <;>
    rcases hH with rfl | rfl | rfl | rfl | rfl | rfl <;>
    first
      | exact absurd rfl hne
      | decide

/-- A bit group is a 32-bit word. -/
theorem field_group_lt {G : Nat} (hG : G ∈ FIELD_GROUPS) : G < 2 ^ 32 := by
  rw [field_groups_value] at hG
  simp only [List.mem_cons, List.mem_singleton, List.not_mem_nil, or_false] at hG
  rcases hG with rfl | rfl | rfl | rfl | rfl | rfl <;> decide

/-- Bits inside one group are outside every group disjoint from it. -/
theorem and_eq_zero_of_within {m G H : Nat} (hm : m &&& G = m) (hGH : G &&& H = 0) :
    m &&& H = 0 := by
  rw [← hm, Nat.and_assoc, hGH, Nat.and_zero]

/-- C11: the six fields occupy pairwise disjoint bit groups (`0x00000008`,
`0x00000200`, `0x00030000`, `0x00080000`, `0x00700000`, `0x00800000`), so for
every identifier, setting (`ompi_arch_setmask`) or flipping (exclusive or) bits
`m` that lie in the group `G` of one field leaves the bits of every other
field's group `H` unchanged, and with them the value any reader decodes from
that group. -/
theorem C11_field_independence (id m G H : Nat) (hid : id < 2 ^ 32)
    (hG : G ∈ FIELD_GROUPS) (hH : H ∈ FIELD_GROUPS) (hne : G ≠ H) (hm : m &&& G = m) :
    FIELD_GROUPS = [0x00000008, 0x00000200, 0x00030000, 0x00080000, 0x00700000, 0x00800000]
      ∧ G &&& H = 0
      ∧ read_group (ompi_arch_setmask id m) H = read_group id H
      ∧ read_group (id ^^^ m) H = read_group id H
      ∧ ∀ {α : Type} (mask : α → Option Nat) (all : List α),
          value_of mask all (read_group (ompi_arch_setmask id m) H)
              = value_of mask all (read_group id H)
            ∧ value_of mask all (read_group (id ^^^ m) H)
              = value_of mask all (read_group id H) := by
  have hGH : G &&& H = 0 := field_groups_disjoint hG hH hne
  have hmH : m &&& H = 0 := and_eq_zero_of_within hm hGH
  have hmlt : m < 2 ^ 32 := by
    rw [← hm]
    exact Nat.and_lt_two_pow m (field_group_lt hG)
  have hset : read_group (ompi_arch_setmask id m) H = read_group id H := by
    unfold read_group
    rw [setmask_eq_lor hid hmlt, Nat.and_distrib_right, hmH, Nat.or_zero]
  have hflip : read_group (id ^^^ m) H = read_group id H := by
    unfold read_group
    rw [Nat.and_xor_distrib_right, hmH, Nat.xor_zero]
  refine ⟨field_groups_value, hGH, hset, hflip, ?_⟩
  intro α mask all
  rw [hset, hflip]
  exact ⟨rfl, rfl⟩

/-- C11 at the identifier `0xFF590200`, with `OMPI_ARCH_LDISINTEL` set or
flipped and the mantissa group read. -/
theorem C11_field_independence_witness :
    FIELD_GROUPS = [0x00000008, 0x00000200, 0x00030000, 0x00080000, 0x00700000, 0x00800000]
      ∧ GROUP_LEADING &&& GROUP_MANTISSA = 0
      ∧ read_group (ompi_arch_setmask 0xFF590200 OMPI_ARCH_LDISINTEL) GROUP_MANTISSA
          = read_group 0xFF590200 GROUP_MANTISSA
      ∧ read_group (0xFF590200 ^^^ OMPI_ARCH_LDISINTEL) GROUP_MANTISSA
          = read_group 0xFF590200 GROUP_MANTISSA
      ∧ ∀ {α : Type} (mask : α → Option Nat) (all : List α),
          value_of mask all
                (read_group (ompi_arch_setmask 0xFF590200 OMPI_ARCH_LDISINTEL) GROUP_MANTISSA)
              = value_of mask all (read_group 0xFF590200 GROUP_MANTISSA)
            ∧ value_of mask all (read_group (0xFF590200 ^^^ OMPI_ARCH_LDISINTEL) GROUP_MANTISSA)
              = value_of mask all (read_group 0xFF590200 GROUP_MANTISSA) :=
  C11_field_independence 0xFF590200 OMPI_ARCH_LDISINTEL GROUP_LEADING GROUP_MANTISSA
    (by decide) (by decide) (by decide) (by decide) (by decide)

/-! ## Guard and reserved bits under encoding -/

/-- Every semantic mask lies inside `0x00FB0208`: it has no bit in the rest of
the word, `0xFF04FDF7`. -/
theorem semantic_mask_outside {m : Nat} (hm : m ∈ SEMANTIC_MASKS) :
    m &&& 0xFF04FDF7 = 0 ∧ m < 2 ^ 32 := by
  unfold SEMANTIC_MASKS at hm
  simp only [List.mem_cons, List.mem_singleton, List.not_mem_nil, or_false] at hm
  rcases hm with rfl | rfl | rfl | rfl | rfl | rfl | rfl | rfl | rfl | rfl | rfl <;> decide

/-- Setting semantic masks keeps a 32-bit word a 32-bit word and keeps its bits
outside `0x00FB0208`. -/
theorem set_masks_outside (masks : List Nat) (hmasks : ∀ m ∈ masks, m ∈ SEMANTIC_MASKS) :
    ∀ var : Nat, var < 2 ^ 32 →
      set_masks var masks < 2 ^ 32
        ∧ set_masks var masks &&& 0xFF04FDF7 = var &&& 0xFF04FDF7 := by
  induction masks with
  | nil =>
    intro var hvar
    exact ⟨hvar, rfl⟩
  | cons m rest ih =>
    intro var hvar
    have hm := semantic_mask_outside (hmasks m (List.mem_cons_self m rest))
    have hrest : ∀ x ∈ rest, x ∈ SEMANTIC_MASKS :=
      fun x hx => hmasks x (List.mem_cons_of_mem m hx)
    have hstep : ompi_arch_setmask var m = var ||| m := setmask_eq_lor hvar hm.2
    have hlt : var ||| m < 2 ^ 32 := Nat.or_lt_two_pow hvar hm.2
    have hih := ih hrest (var ||| m) hlt
    show set_masks (ompi_arch_setmask var m) rest < 2 ^ 32
      ∧ set_masks (ompi_arch_setmask var m) rest &&& 0xFF04FDF7 = var &&& 0xFF04FDF7
    rw [hstep]
    refine ⟨hih.1, ?_⟩
    rw [hih.2, Nat.and_distrib_right, hm.1, Nat.or_zero]

/-- A bit below 32 that is not in `0x00FB0208` is in `0xFF04FDF7`. -/
theorem outside_bit (k : Nat) (hk : k < 32) (hout : Nat.testBit 0x00FB0208 k = false) :
    Nat.testBit 0xFF04FDF7 k = true := by
  interval_cases k <;> first | rfl | exact absurd hout (by decide)

/-- C12: the empty identifier has the `11` guard set
(`id AND OMPI_ARCH_HEADERMASK = OMPI_ARCH_HEADERMASK`) and the `00` guard clear
(`id AND OMPI_ARCH_HEADERMASK2 = 0`), and so has every identifier reached from
it by a sequence of `ompi_arch_setmask` calls with semantic field masks; such an
identifier has every bit outside `0x00FB0208`, the bits of the semantic masks,
exactly as in the empty identifier. -/
theorem C12_guard_invariant (id0 : Nat) (masks : List Nat)
    (hmasks : ∀ m ∈ masks, m ∈ SEMANTIC_MASKS) :
    ompi_arch_create_empty_id id0 &&& OMPI_ARCH_HEADERMASK = OMPI_ARCH_HEADERMASK
      ∧ ompi_arch_create_empty_id id0 &&& OMPI_ARCH_HEADERMASK2 = 0
      ∧ set_masks (ompi_arch_create_empty_id id0) masks &&& OMPI_ARCH_HEADERMASK
          = OMPI_ARCH_HEADERMASK
      ∧ set_masks (ompi_arch_create_empty_id id0) masks &&& OMPI_ARCH_HEADERMASK2 = 0
      ∧ SEMANTIC_MASKS.foldl (fun acc m => acc ||| m) 0 = 0x00FB0208
      ∧ ∀ k : Nat, Nat.testBit 0x00FB0208 k = false →
          (set_masks (ompi_arch_create_empty_id id0) masks).testBit k
            = (ompi_arch_create_empty_id id0).testBit k := by
  rw [create_empty_id_value]
  obtain ⟨hlt, hkeep⟩ := set_masks_outside masks hmasks 0xFF000000 (by decide)
  have hkeep2 : set_masks 0xFF000000 masks &&& 0xFF04FDF7 = 0xFF000000 := by
    rw [hkeep]
    decide
  have hguard : ∀ g : Nat, 0xFF04FDF7 &&& g = g →
      set_masks 0xFF000000 masks &&& g = 0xFF000000 &&& g := by
    intro g hg
    calc set_masks 0xFF000000 masks &&& g
        = set_masks 0xFF000000 masks &&& (0xFF04FDF7 &&& g) := by rw [hg]
      _ = (set_masks 0xFF000000 masks &&& 0xFF04FDF7) &&& g := by rw [Nat.and_assoc]
      _ = 0xFF000000 &&& g := by rw [hkeep2]
  refine ⟨by decide, by decide, ?_, ?_, by decide, ?_⟩
  · rw [hguard OMPI_ARCH_HEADERMASK (by decide)]
    decide
  · rw [hguard OMPI_ARCH_HEADERMASK2 (by decide)]
    decide
  · intro k hout
    by_cases hk : k < 32
    · have hbit := outside_bit k hk hout
      have h1 : (set_masks 0xFF000000 masks &&& 0xFF04FDF7).testBit k
          = Nat.testBit 0xFF000000 k := by rw [hkeep2]
      rw [Nat.testBit_and, hbit, Bool.and_true] at h1
      exact h1
    · have hge : 2 ^ 32 ≤ 2 ^ k := Nat.pow_le_pow_right (by decide) (by omega)
      rw [Nat.testBit_lt_two_pow (Nat.lt_of_lt_of_le hlt hge),
        Nat.testBit_lt_two_pow (Nat.lt_of_lt_of_le (by decide : 0xFF000000 < 2 ^ 32) hge)]

/-- C12 on the calls that build the identifier `0xFF590200`. -/
theorem C12_guard_invariant_witness :
    ompi_arch_create_empty_id 0 &&& OMPI_ARCH_HEADERMASK = OMPI_ARCH_HEADERMASK
      ∧ ompi_arch_create_empty_id 0 &&& OMPI_ARCH_HEADERMASK2 = 0
      ∧ set_masks (ompi_arch_create_empty_id 0)
            [OMPI_ARCH_LONGIS64, OMPI_ARCH_LONGDOUBLEIS128, OMPI_ARCH_LDEXPSIZEIS15,
              OMPI_ARCH_LDMANTDIGIS113] &&& OMPI_ARCH_HEADERMASK
          = OMPI_ARCH_HEADERMASK
      ∧ set_masks (ompi_arch_create_empty_id 0)
            [OMPI_ARCH_LONGIS64, OMPI_ARCH_LONGDOUBLEIS128, OMPI_ARCH_LDEXPSIZEIS15,
              OMPI_ARCH_LDMANTDIGIS113] &&& OMPI_ARCH_HEADERMASK2 = 0
      ∧ SEMANTIC_MASKS.foldl (fun acc m => acc ||| m) 0 = 0x00FB0208
      ∧ ∀ k : Nat, Nat.testBit 0x00FB0208 k = false →
          (set_masks (ompi_arch_create_empty_id 0)
              [OMPI_ARCH_LONGIS64, OMPI_ARCH_LONGDOUBLEIS128, OMPI_ARCH_LDEXPSIZEIS15,
                OMPI_ARCH_LDMANTDIGIS113]).testBit k
            = (ompi_arch_create_empty_id 0).testBit k :=
  C12_guard_invariant 0
    [OMPI_ARCH_LONGIS64, OMPI_ARCH_LONGDOUBLEIS128, OMPI_ARCH_LDEXPSIZEIS15,
      OMPI_ARCH_LDMANTDIGIS113]
    (by decide)

/-! ## The masks against the layout documentation -/

/-- C13: every mask is what the layout documentation assigns to it, bit `k` of
byte `b` having the value `2 ^ (8 * (b - 1) + k - 1)` and a code being written
lowest bit first: `OMPI_ARCH_HEADERMASK2` is byte 1 bits 1-2,
`OMPI_ARCH_ISBIGENDIAN` code 01 in byte 1 bits 3-4, `OMPI_ARCH_LONGIS64` code 01
in byte 2 bits 1-2, `OMPI_ARCH_LONGDOUBLEIS96` code 01 and
`OMPI_ARCH_LONGDOUBLEIS128` code 10 in byte 3 bits 1-2,
`OMPI_ARCH_LDEXPSIZEIS15` code 01 in byte 3 bits 3-4, the mantissa masks codes
001, 010, 011, 100, 101 in byte 3 bits 5-7, `OMPI_ARCH_LDISINTEL` byte 3 bit 8,
`OMPI_ARCH_HEADERMASK` code 11 in byte 4 bits 1-2 and `OMPI_ARCH_UNUSEDMASK`
byte 4 bits 3-8. -/
theorem C13_masks_match_layout :
    OMPI_ARCH_HEADERMASK2 = layout_bits 1 1 2
      ∧ OMPI_ARCH_ISBIGENDIAN = layout_code 1 3 [0, 1]
      ∧ OMPI_ARCH_LONGIS64 = layout_code 2 1 [0, 1]
      ∧ OMPI_ARCH_LONGDOUBLEIS96 = layout_code 3 1 [0, 1]
      ∧ OMPI_ARCH_LONGDOUBLEIS128 = layout_code 3 1 [1, 0]
      ∧ OMPI_ARCH_LDEXPSIZEIS15 = layout_code 3 3 [0, 1]
      ∧ OMPI_ARCH_LDMANTDIGIS64 = layout_code 3 5 [0, 0, 1]
      ∧ OMPI_ARCH_LDMANTDIGIS105 = layout_code 3 5 [0, 1, 0]
      ∧ OMPI_ARCH_LDMANTDIGIS106 = layout_code 3 5 [0, 1, 1]
      ∧ OMPI_ARCH_LDMANTDIGIS107 = layout_code 3 5 [1, 0, 0]
      ∧ OMPI_ARCH_LDMANTDIGIS113 = layout_code 3 5 [1, 0, 1]
      ∧ OMPI_ARCH_LDISINTEL = layout_bit 3 8
      ∧ OMPI_ARCH_HEADERMASK = layout_code 4 1 [1, 1]
      ∧ OMPI_ARCH_UNUSEDMASK = layout_bits 4 3 8 := by
  decide

/-! ## The indices of `ompi_arch_ldisintel` -/

/-- The indices on a little-endian host: bit `(m - 1) % 32` of word
`(m - 1) / 32`. -/
theorem ldisintel_index_little (m s u : Nat) (hm : 1 ≤ m) :
    ldisintel_index 0 m s u = ((((m - 1) % 32 : Nat) : Int), (((m - 1) / 32 : Nat) : Int)) := by
  unfold ldisintel_index
  simp only [ne_eq, not_true_eq_false, if_false]
  split
  · next h => exact Prod.ext (by simp only; omega) (by simp only; omega)
  · next h => exact Prod.ext (by simp only; omega) (by simp only; omega)

/-- The indices on a big-endian host whose long double has `S` words of four
bytes: the bit index of the little-endian host, and the word index `S - j` for
the little-endian word index `j`. -/
theorem ldisintel_index_big (m S : Nat) :
    (ldisintel_index 1 m (4 * S) 4).1 = (ldisintel_index 0 m (4 * S) 4).1
      ∧ (ldisintel_index 1 m (4 * S) 4).2 = (S : Int) - (ldisintel_index 0 m (4 * S) 4).2 := by
  have hS : 4 * S / 4 = S := by omega
  unfold ldisintel_index
  simp only [ne_eq, not_true_eq_false, if_false, one_ne_zero, not_false_eq_true, if_true, hS]
  split
  · next h => exact ⟨rfl, by omega⟩
  · next h => exact ⟨rfl, by omega⟩

/-- C14 at `LDBL_MANT_DIG = 64` and a long double of three words: on the words
`[0x00000000, 0x80000000, 0x00004000]` the little-endian probe reads word 1 and
returns 1; on the same words read backward the big-endian probe reads word 2,
not word 1, and returns 0. For every digit count `m` and size `S` the
big-endian word index is `S - j`, one more than the mirror image `S - 1 - j` of
the little-endian index `j`. The last line is the probe on the big-endian
96-bit extended format with an explicit leading bit, 2.0 being
`[0x40000000, 0x80000000, 0x00000000]`. -/
theorem C14_big_endian_reads_next_word (m S : Nat) :
    ompi_arch_ldisintel (store_uint32 false 0x12345678) 64 12 4
        [0x00000000, 0x80000000, 0x00004000] = Outcome.ret 1
      ∧ [0x00000000, 0x80000000, 0x00004000].reverse = [0x00004000, 0x80000000, 0x00000000]
      ∧ ompi_arch_ldisintel (store_uint32 true 0x12345678) 64 12 4
        [0x00004000, 0x80000000, 0x00000000] = Outcome.ret 0
      ∧ ldisintel_index 0 64 12 4 = (31, 1)
      ∧ ldisintel_index 1 64 12 4 = (31, 2)
      ∧ (ldisintel_index 1 m (4 * S) 4).1 = (ldisintel_index 0 m (4 * S) 4).1
      ∧ (ldisintel_index 1 m (4 * S) 4).2 = (S : Int) - (ldisintel_index 0 m (4 * S) 4).2
      ∧ ompi_arch_ldisintel (store_uint32 true 0x12345678) 64 12 4
        [0x40000000, 0x80000000, 0x00000000] = Outcome.ret 0 :=
  ⟨by decide, by decide, by decide, by decide, by decide,
    (ldisintel_index_big m S).1, (ldisintel_index_big m S).2, by decide⟩

/-- C15, as stated, fails for IEEE binary64 (`W = 64`, `E = 11`,
`LDBL_MANT_DIG = 53`): the probe computes `32 * j + i = 52`, not
`W - 2 - E = 51`. -/
theorem C15_tested_bit_as_stated_fails :
    ¬ (32 * (ldisintel_index 0 53 8 4).2 + (ldisintel_index 0 53 8 4).1 = 64 - 2 - 11) := by
  decide

/-- C15, amended: on a little-endian host the bit `ompi_arch_ldisintel` tests is
bit number `LDBL_MANT_DIG - 1`. For x87 extended (`W = 80`, `E = 15`,
`LDBL_MANT_DIG = 64`, in 12 or 16 bytes) that is bit `W - 2 - E = 63`, the bit
just below the exponent field; for IEEE binary64 (`W = 64`, `E = 11`,
`LDBL_MANT_DIG = 53`) and IEEE binary128 (`W = 128`, `E = 15`,
`LDBL_MANT_DIG = 113`) it is bit `W - 1 - E`, 52 and 112, the lowest bit of the
exponent field. -/
theorem C15_tested_bit :
    tested_bit 0 64 12 4 = 64 - 1 ∧ tested_bit 0 64 12 4 = 80 - 2 - 15
      ∧ tested_bit 0 64 16 4 = 64 - 1 ∧ tested_bit 0 64 16 4 = 80 - 2 - 15
      ∧ tested_bit 0 53 8 4 = 53 - 1 ∧ tested_bit 0 53 8 4 = 64 - 1 - 11
      ∧ tested_bit 0 113 16 4 = 113 - 1 ∧ tested_bit 0 113 16 4 = 128 - 1 - 15 := by
  decide

/-- C16 on the mask as defined: `OMPI_ARCH_LONGLONGISxx` is bits 5 to 8 of the
second byte, the two groups the documentation reserves, and has neither of the
bits 3 and 4 (`0x00000C00`) the documentation gives to the long long length: an
identifier with those two bits set reads as 0 through the mask. -/
theorem C16_longlong_mask :
    OMPI_ARCH_LONGLONGISxx = layout_bits 2 5 8
      ∧ layout_bits 2 3 4 = 0x00000C00
      ∧ OMPI_ARCH_LONGLONGISxx ≠ layout_bits 2 3 4
      ∧ OMPI_ARCH_LONGLONGISxx &&& layout_bits 2 3 4 = 0
      ∧ read_group 0xFF000C00 OMPI_ARCH_LONGLONGISxx = 0
      ∧ read_group 0xFF00F000 OMPI_ARCH_LONGLONGISxx = 0x0000F000 := by
  decide

/-! ## The bit the probe tests -/

/-- Bit `i` of word `j` is bit `32 * j + i` of the number the words stand for;
past the last word the bit is clear. -/
theorem words_value_testBit (ws : List Nat) (hw : ∀ w ∈ ws, w < 2 ^ 32) (j i : Nat)
    (hi : i < 32) : (words_value ws).testBit (32 * j + i) = (ws.getD j 0).testBit i := by
  induction ws generalizing j with
  | nil => simp [words_value]
  | cons w rest ih =>
    have hwlt : w < 2 ^ 32 := hw w (List.mem_cons_self w rest)
    have hrest : ∀ x ∈ rest, x < 2 ^ 32 := fun x hx => hw x (List.mem_cons_of_mem w hx)
    show (2 ^ 32 * words_value rest + w).testBit (32 * j + i) = _
    rw [Nat.testBit_mul_pow_two_add (words_value rest) hwlt]
    cases j with
    | zero =>
      have h0 : 32 * 0 + i < 32 := by omega
      rw [if_pos h0, List.getD_cons_zero]
      simp
    | succ k =>
      have h1 : ¬ 32 * (k + 1) + i < 32 := by omega
      have h2 : 32 * (k + 1) + i - 32 = 32 * k + i := by omega
      rw [if_neg h1, h2, List.getD_cons_succ]
      exact ih hrest k

/-- A read inside the object returns the element. -/
theorem load_natCast (p : List Nat) (j : Nat) :
    load p (j : Int) = match p[j]? with
      | some v => Outcome.ret v
      | none => Outcome.undefined := by
  unfold load
  simp

/-- The shift `1 << i` for a bit index inside a word. -/
theorem shl32_one (i : Nat) (hi : i < 32) : shl32 1 (i : Int) = Outcome.ret (2 ^ i) := by
  unfold shl32 UINT32_RANGE
  have h1 : (0 : Int) ≤ (i : Int) ∧ (i : Int) < 32 := by omega
  have hlt : 2 ^ i < 2 ^ 32 := Nat.pow_lt_pow_right (by decide) hi
  rw [if_pos h1, Int.toNat_ofNat, Nat.one_shiftLeft, Nat.mod_eq_of_lt hlt]

/-- The test `w & (1 << i)` is the test of bit `i` of `w`. -/
theorem and_two_pow_ne_zero (w i : Nat) : w &&& 2 ^ i ≠ 0 ↔ w.testBit i = true := by
  rw [Nat.and_two_pow]
  cases w.testBit i <;> simp

/-- The probe on a little-endian host, by the word it reads. -/
theorem ldisintel_little (m s u : Nat) (ld : List Nat) (hm : 1 ≤ m) :
    ompi_arch_ldisintel (store_uint32 false 0x12345678) m s u ld =
      match ld[(m - 1) / 32]? with
      | some w => Outcome.ret (if w.testBit ((m - 1) % 32) = true then 1 else 0)
      | none => Outcome.undefined := by
  have hlittle : ompi_arch_isbigendian (store_uint32 false 0x12345678) = Outcome.ret 0 := by
    decide
  have hi : (m - 1) % 32 < 32 := Nat.mod_lt _ (by decide)
  rw [ldisintel_unfold, hlittle]
  simp only [Outcome.bind, ldisintel_index_little m s u hm, load_natCast, shl32_one _ hi]
  cases ld[(m - 1) / 32]? with
  | none => rfl
  | some w =>
    simp only
    by_cases hb : w.testBit ((m - 1) % 32) = true
    · rw [if_pos ((and_two_pow_ne_zero w _).mpr hb), if_pos hb]
    · rw [if_neg (fun h => hb ((and_two_pow_ne_zero w _).mp h)), if_neg hb]

/-- C17: on a little-endian host, for every digit count `m >= 1`, the bit index
`i` and word index `j` of `ompi_arch_ldisintel` satisfy `0 <= i <= 31` and
`32 * j + i = m - 1`, and on a long double of 32-bit words the probe returns 1
exactly when bit number `m - 1` of the value the words stand for is set; when
the words hold that bit (`m <= 32 * length`) the probe returns, 1 for a set bit
and 0 for a clear one. -/
theorem C17_little_endian_tested_bit (m s u : Nat) (ld : List Nat) (hm : 1 ≤ m)
    (hw : ∀ w ∈ ld, w < 2 ^ 32) :
    0 ≤ (ldisintel_index 0 m s u).1
      ∧ (ldisintel_index 0 m s u).1 ≤ 31
      ∧ 0 ≤ (ldisintel_index 0 m s u).2
      ∧ 32 * (ldisintel_index 0 m s u).2 + (ldisintel_index 0 m s u).1 = (m : Int) - 1
      ∧ tested_bit 0 m s u = (m : Int) - 1
      ∧ (ompi_arch_ldisintel (store_uint32 false 0x12345678) m s u ld = Outcome.ret 1
          ↔ (words_value ld).testBit (m - 1) = true)
      ∧ (m ≤ 32 * ld.length →
          ompi_arch_ldisintel (store_uint32 false 0x12345678) m s u ld
            = Outcome.ret (if (words_value ld).testBit (m - 1) = true then 1 else 0)) := by
  have hsum : 32 * ((((m - 1) / 32 : Nat) : Int)) + (((m - 1) % 32 : Nat) : Int) = (m : Int) - 1 := by
    omega
  have hbit : (words_value ld).testBit (m - 1) = (ld.getD ((m - 1) / 32) 0).testBit ((m - 1) % 32) := by
    have h := words_value_testBit ld hw ((m - 1) / 32) ((m - 1) % 32) (Nat.mod_lt _ (by decide))
    rw [Nat.div_add_mod] at h
    exact h
  have hprobe := ldisintel_little m s u ld hm
  refine ⟨?_, ?_, ?_, ?_, ?_, ?_, ?_⟩
  · rw [ldisintel_index_little m s u hm]
    show (0 : Int) ≤ (((m - 1) % 32 : Nat) : Int)
    omega
  · rw [ldisintel_index_little m s u hm]
    show (((m - 1) % 32 : Nat) : Int) ≤ 31
    omega
  · rw [ldisintel_index_little m s u hm]
    show (0 : Int) ≤ (((m - 1) / 32 : Nat) : Int)
    omega
  · rw [ldisintel_index_little m s u hm]
    exact hsum
  · unfold tested_bit
    rw [ldisintel_index_little m s u hm]
    exact hsum
  · rw [hprobe, hbit, List.getD_eq_getElem?_getD]
    cases ld[(m - 1) / 32]? with
    | none => simp
    | some w =>
      simp only [Option.getD_some]
      by_cases hb : w.testBit ((m - 1) % 32) = true
      · simp [hb]
      · simp [hb]
  · intro hlen
    have hj : (m - 1) / 32 < ld.length := by omega
    rw [hprobe, hbit, List.getD_eq_getElem?_getD, List.getElem?_eq_getElem hj]
    rfl

/-- C17 at `LDBL_MANT_DIG = 64`, a multiple of 32, on the x87 words of 2.0. -/
theorem C17_little_endian_tested_bit_witness :
    0 ≤ (ldisintel_index 0 64 12 4).1
      ∧ (ldisintel_index 0 64 12 4).1 ≤ 31
      ∧ 0 ≤ (ldisintel_index 0 64 12 4).2
      ∧ 32 * (ldisintel_index 0 64 12 4).2 + (ldisintel_index 0 64 12 4).1 = ((64 : Nat) : Int) - 1
      ∧ tested_bit 0 64 12 4 = ((64 : Nat) : Int) - 1
      ∧ (ompi_arch_ldisintel (store_uint32 false 0x12345678) 64 12 4
            [0x00000000, 0x80000000, 0x00004000] = Outcome.ret 1
          ↔ (words_value [0x00000000, 0x80000000, 0x00004000]).testBit (64 - 1) = true)
      ∧ (64 ≤ 32 * [0x00000000, 0x80000000, 0x00004000].length →
          ompi_arch_ldisintel (store_uint32 false 0x12345678) 64 12 4
              [0x00000000, 0x80000000, 0x00004000]
            = Outcome.ret
                (if (words_value [0x00000000, 0x80000000, 0x00004000]).testBit (64 - 1) = true
                  then 1 else 0)) :=
  C17_little_endian_tested_bit 64 12 4 [0x00000000, 0x80000000, 0x00004000] (by decide)
    (by decide)

/-! ## The supported layouts -/

/-- A read at an index inside the object returns. -/
theorem load_in_range (p : List Nat) (k : Int) (h0 : 0 ≤ k) (hlt : k < (p.length : Int)) :
    ∃ v, load p k = Outcome.ret v := by
  obtain ⟨j, rfl⟩ : ∃ j : Nat, k = (j : Int) := ⟨k.toNat, by omega⟩
  have hj : j < p.length := by omega
  rw [load_natCast, List.getElem?_eq_getElem hj]
  exact ⟨p[j], rfl⟩

/-- A shift count inside a word gives a defined shift. -/
theorem shl32_in_range (i : Int) (h0 : 0 ≤ i) (h31 : i ≤ 31) :
    ∃ b, shl32 1 i = Outcome.ret b := by
  obtain ⟨n, rfl⟩ : ∃ n : Nat, i = (n : Int) := ⟨i.toNat, by omega⟩
  exact ⟨2 ^ n, shl32_one n (by omega)⟩

/-- The probe of a host of either byte order. -/
theorem isbigendian_store (big : Bool) :
    ompi_arch_isbigendian (store_uint32 big 0x12345678)
      = Outcome.ret (if big = true then 1 else 0) := by
  cases big <;> decide

/-- The indices of the supported layouts, for both byte orders. -/
theorem supported_layout_indices (m s : Nat) (big : Bool) (hl : (m, s) ∈ SUPPORTED_LAYOUTS) :
    0 ≤ (ldisintel_index (if big = true then 1 else 0) m s 4).2
      ∧ (ldisintel_index (if big = true then 1 else 0) m s 4).2 < ((s / 4 : Nat) : Int)
      ∧ 0 ≤ (ldisintel_index (if big = true then 1 else 0) m s 4).1
      ∧ (ldisintel_index (if big = true then 1 else 0) m s 4).1 ≤ 31 := by
  unfold SUPPORTED_LAYOUTS at hl
  simp only [List.mem_cons, List.mem_singleton, List.not_mem_nil, or_false, Prod.mk.injEq] at hl
  rcases hl with ⟨rfl, rfl⟩ | ⟨rfl, rfl⟩ | ⟨rfl, rfl⟩ | ⟨rfl, rfl⟩ | ⟨rfl, rfl⟩ | ⟨rfl, rfl⟩
    | ⟨rfl, rfl⟩ <;> cases big <;> decide

/-- C18: for every supported pair of `LDBL_MANT_DIG` and `sizeof(long double)`
and for both byte orders, `ompi_arch_ldisintel` computes a word index `j` with
`0 <= j < sizeof(long double) / 4` and a bit index `i` with `0 <= i <= 31`; on
a long double of that many words the read of word `j` is inside the object and
the probe returns. -/
theorem C18_indices_in_range (m s : Nat) (big : Bool) (ld : List Nat)
    (hl : (m, s) ∈ SUPPORTED_LAYOUTS) (hlen : ld.length = s / 4) :
    0 ≤ (ldisintel_index (if big = true then 1 else 0) m s 4).2
      ∧ (ldisintel_index (if big = true then 1 else 0) m s 4).2 < ((s / 4 : Nat) : Int)
      ∧ 0 ≤ (ldisintel_index (if big = true then 1 else 0) m s 4).1
      ∧ (ldisintel_index (if big = true then 1 else 0) m s 4).1 ≤ 31
      ∧ (∃ w, load ld (ldisintel_index (if big = true then 1 else 0) m s 4).2 = Outcome.ret w)
      ∧ ∃ r, ompi_arch_ldisintel (store_uint32 big 0x12345678) m s 4 ld = Outcome.ret r := by
  obtain ⟨hj0, hj1, hi0, hi1⟩ := supported_layout_indices m s big hl
  rw [← hlen] at hj1
  obtain ⟨w, hw⟩ := load_in_range ld _ hj0 hj1
  obtain ⟨b, hb⟩ := shl32_in_range _ hi0 hi1
  rw [hlen] at hj1
  refine ⟨hj0, hj1, hi0, hi1, ⟨w, hw⟩, ?_⟩
  rw [ldisintel_unfold, isbigendian_store]
  simp only [Outcome.bind, hw, hb]
  exact ⟨_, rfl⟩

/-- C18 at the big-endian binary128 layout of 2.0. -/
theorem C18_indices_in_range_witness :
    0 ≤ (ldisintel_index (if true = true then 1 else 0) 113 16 4).2
      ∧ (ldisintel_index (if true = true then 1 else 0) 113 16 4).2 < ((16 / 4 : Nat) : Int)
      ∧ 0 ≤ (ldisintel_index (if true = true then 1 else 0) 113 16 4).1
      ∧ (ldisintel_index (if true = true then 1 else 0) 113 16 4).1 ≤ 31
      ∧ (∃ w, load [0x40000000, 0x00000000, 0x00000000, 0x00000000]
            (ldisintel_index (if true = true then 1 else 0) 113 16 4).2 = Outcome.ret w)
      ∧ ∃ r, ompi_arch_ldisintel (store_uint32 true 0x12345678) 113 16 4
          [0x40000000, 0x00000000, 0x00000000, 0x00000000] = Outcome.ret r :=
  C18_indices_in_range 113 16 true [0x40000000, 0x00000000, 0x00000000, 0x00000000]
    (by decide) (by decide)

end OmpiArch
